import Mathlib

/-!
Verification development for the lochness versioned file-replication layer.

The development shallowly embeds the delta engine (`lochness/helpers/delta.py`),
the chain resolver (same module), the file record store queries
(`lochness/models/files.py`) and the replication orchestrator
(`lochness/tasks/push_data.py`).

External collaborators (the `diff_match_patch` library, `zlib`, `base64`) are
modelled as abstract function bundles (`DmpLib`, `Codec`): the repository code
is embedded exactly as it composes these collaborators, and theorems about the
round-trip behaviour take the collaborators' documented contracts as
hypotheses, discharged on executable toy instances in the witnesses.
-/

namespace Lochness

/-- Abstract bundle of the diff-match-patch library operations used by
`lochness/helpers/delta.py`.  `Diff` is the type of diff lists
(`diff_main` output), `Patches` the type of parsed patch lists.
`patch_fromText` returns `none` where the Python library raises `ValueError`,
and `patch_apply` returns the patched text together with the per-hunk success
flags, exactly as the library does. -/
structure DmpLib (Diff Patches : Type) where
  diff_main : String → String → Diff
  diff_cleanupEfficiency : Diff → Diff
  patch_make : String → Diff → Patches
  patch_toText : Patches → String
  patch_fromText : String → Option Patches
  patch_apply : Patches → String → String × List Bool

/-- Abstract bundle of the `zlib` + `base64` operations used by
`lochness/helpers/delta.py`.  Compressed data is a list of bytes.
`b64decode` and `decompress` return `none` where Python raises
`ValueError` (incl. `binascii.Error`, `UnicodeDecodeError`) or `zlib.error`. -/
structure Codec where
  compress : String → List Nat
  b64encode : List Nat → String
  b64decode : String → Option (List Nat)
  decompress : List Nat → Option String

/-- Errors of the delta module, mirroring the exception classes
`DeltaPatchError` and `DeltaChainError` of `lochness/helpers/delta.py`.
Each constructor records the data interpolated into the Python message. -/
inductive DeltaError where
  /-- apply_delta: failed to decode delta (base64/zlib failure). -/
  | patchDecode : DeltaError
  /-- apply_delta: invalid patch format (`patch_fromText` failure). -/
  | patchInvalidFormat : DeltaError
  /-- apply_delta: some hunks failed to apply (`failed` of `total`). -/
  | patchHunksFailed (failed total : Nat) : DeltaError
  /-- resolve_delta_chain_from_db: circular reference at this md5. -/
  | chainCircular (md5 : String) : DeltaError
  /-- resolve_delta_chain_from_db: md5 not found in the database. -/
  | chainMd5Missing (md5 : String) : DeltaError
  /-- resolve_delta_chain_from_db: chain exceeded maximum length. -/
  | chainTooLong (maxLen : Nat) : DeltaError
  /-- reconstruct_file_from_chain: missing delta at 1-based position. -/
  | chainMissingDelta (pos : Nat) (md5 : String) : DeltaError
  /-- reconstruct_file_from_chain: re-raised patch failure at 1-based position. -/
  | chainApplyFailed (pos : Nat) (md5 : String) (inner : DeltaError) : DeltaError
deriving DecidableEq, Repr

deriving instance DecidableEq for Except

/-- Classifier: which `DeltaError` values correspond to the Python class
`DeltaPatchError` (as opposed to `DeltaChainError`).  Note that
`reconstruct_file_from_chain` re-raises apply failures as `DeltaPatchError`
while the missing-delta case is a `DeltaChainError`. -/
def DeltaError.isPatchError : DeltaError → Bool
  | .patchDecode => true
  | .patchInvalidFormat => true
  | .patchHunksFailed _ _ => true
  | .chainApplyFailed _ _ _ => true
  | _ => false

/-- Embedding of `compute_delta` (delta.py lines 36-69): diff, cleanup,
make patches, serialize; in compact mode additionally compress and
base64-encode. -/
def compute_delta {D P : Type} (dmp : DmpLib D P) (codec : Codec)
    (original_content modified_content : String)
    (human_readable : Bool) : String :=
  let diffs := dmp.diff_cleanupEfficiency (dmp.diff_main original_content modified_content)
  let patches := dmp.patch_make original_content diffs
  let patch_text := dmp.patch_toText patches
  if human_readable then
    patch_text
  else
    codec.b64encode (codec.compress patch_text)

/-- The decode step of `apply_delta`: in human-readable mode the delta is the
patch text itself; in compact mode it is base64-decoded then decompressed,
failing (`none`) where Python raises `ValueError` or `zlib.error`. -/
def decode_delta_text (codec : Codec) (delta : String)
    (human_readable : Bool) : Option String :=
  if human_readable then
    some delta
  else
    (codec.b64decode delta).bind codec.decompress

/-- Embedding of `apply_delta` (delta.py lines 109-158): decode (compact mode
only), parse the patch text, apply all hunks; any hunk failure makes the whole
operation fail — the partially patched `result` is discarded. -/
def apply_delta {D P : Type} (dmp : DmpLib D P) (codec : Codec)
    (original_content delta : String)
    (human_readable : Bool) : Except DeltaError String :=
  match decode_delta_text codec delta human_readable with
  | none => .error .patchDecode
  | some patch_text =>
    match dmp.patch_fromText patch_text with
    | none => .error .patchInvalidFormat
    | some patches =>
      let applied := dmp.patch_apply patches original_content
      if applied.2.all (fun b => b) then
        .ok applied.1
      else
        .error (.patchHunksFailed (applied.2.count false) applied.2.length)

/-- Embedding of `is_delta_efficient` (delta.py lines 418-443): compute the
compact delta, compare its UTF-8 byte size against the modified content's;
an empty modified content is reported efficient unconditionally. -/
def is_delta_efficient {D P : Type} (dmp : DmpLib D P) (codec : Codec)
    (original_content modified_content : String)
    (threshold : ℚ) : Bool :=
  let delta := compute_delta dmp codec original_content modified_content false
  let delta_size := delta.utf8ByteSize
  let modified_size := modified_content.utf8ByteSize
  if modified_size = 0 then
    true
  else
    decide ((delta_size : ℚ) / (modified_size : ℚ) ≤ threshold)

/-- Embedding of `convert_delta_format` (delta.py lines 446-478): converting to
human-readable attempts base64-decode + decompress and falls back to the input
on failure; converting to compact attempts base64-decode only (success means
already compressed) and compresses on failure. -/
def convert_delta_format (codec : Codec) (delta : String)
    (to_human_readable : Bool) : String :=
  if to_human_readable then
    match (codec.b64decode delta).bind codec.decompress with
    | some text => text
    | none => delta
  else
    match codec.b64decode delta with
    | some _ => delta
    | none => codec.b64encode (codec.compress delta)

/-- Executable toy instance of the diff-match-patch bundle, used to discharge
library-contract hypotheses on concrete inputs: a diff is the (original,
modified) pair, serialized with a pipe separator, and applying it to the exact
original succeeds with one hunk. -/
def toyDmp : DmpLib (String × String) (String × String) where
  diff_main := fun a b => (a, b)
  diff_cleanupEfficiency := fun d => d
  patch_make := fun _ d => d
  patch_toText := fun p => p.1 ++ "|" ++ p.2
  patch_fromText := fun s =>
    let before := s.data.takeWhile (fun c => c != '|')
    match s.data.dropWhile (fun c => c != '|') with
    | [] => none
    | _ :: after => some (String.mk before, String.mk after)
  patch_apply := fun p s => if s = p.1 then (p.2, [true]) else (s, [false])

/-- Executable toy codec: compression maps a string to its character codes
prefixed with a marker byte, base64 transport maps byte lists to strings
characterwise.  Satisfies the decode-after-encode round trips on concrete
inputs. -/
def toyCodec : Codec where
  compress := fun s => 0 :: s.data.map Char.toNat
  b64encode := fun l => String.mk (l.map Char.ofNat)
  b64decode := fun s => some (s.data.map Char.toNat)
  decompress := fun l =>
    match l with
    | 0 :: rest => some (String.mk (rest.map Char.ofNat))
    | _ => none

/-- A second codec toy instance used to exhibit the nested-encoding scenario:
decode is partial (only marker-prefixed strings decode), mirroring real
base64/zlib, yet a compressed payload can itself be a decodable string. -/
def cexCodec : Codec where
  compress := fun s => 0 :: s.data.map Char.toNat
  b64encode := fun l => String.mk (Char.ofNat 66 :: l.map Char.ofNat)
  b64decode := fun s =>
    match s.data with
    | c :: rest => if c = Char.ofNat 66 then some (rest.map Char.toNat) else none
    | [] => none
  decompress := fun l =>
    match l with
    | 0 :: rest => some (String.mk (rest.map Char.ofNat))
    | _ => none

/-- A compact-encoded delta whose decoded human-readable text is itself a
valid compact encoding (a nested encoding). -/
def cexNestedDelta : String :=
  cexCodec.b64encode (cexCodec.compress (cexCodec.b64encode (cexCodec.compress "x")))

/-! ### Chain resolver (`resolve_delta_chain_from_db`, `reconstruct_file_from_chain`) -/

/-- A row of the `files` table as seen by the chain resolver: the columns
selected by the query in `resolve_delta_chain_from_db` plus the
`file_metadata` keys it reads (`parent_md5`, `delta`, `delta_format`).
A `delta_format` of `none` models an absent key, read back with the default
value `compressed`. -/
structure ChainRow where
  file_path : String
  parent_md5 : Option String
  delta : Option String
  delta_format : Option String
deriving DecidableEq, Repr

/-- One link of a resolved delta chain, as accumulated by
`resolve_delta_chain_from_db` (the dict appended at delta.py lines 314-321). -/
structure ChainLink where
  file_md5 : String
  file_path : String
  delta : Option String
  delta_format : String
deriving DecidableEq, Repr

/-- The link dict built for the current md5 from its database row. -/
def mkChainLink (md5 : String) (row : ChainRow) : ChainLink :=
  { file_md5 := md5
    file_path := row.file_path
    delta := row.delta
    delta_format := row.delta_format.getD "compressed" }

/-- The `while len(chain) < max_chain_length` loop of
`resolve_delta_chain_from_db` (delta.py lines 284-327).  `lookup` models the
`SELECT ... WHERE file_md5 = ... LIMIT 1` database query (`none` for an empty
result).  The loop guard `len(chain) < max_chain_length` is realized by the
`fuel` argument, initialized to `max_chain_length` and decremented as the
chain grows by exactly one link per iteration (so `fuel` is always
`max_chain_length - len(chain)`, and `fuel = 0` is the guard failing).
Each iteration: cycle check against the visited set, database lookup, return
at a root (no `parent_md5`), otherwise append a link and continue with the
parent; falling out of the loop raises the too-long error. -/
def resolveChainLoop (lookup : String → Option ChainRow) (max_chain_length : Nat) :
    Nat → List ChainLink → String → List String →
    Except DeltaError (String × List ChainLink)
  | 0, _, _, _ => .error (.chainTooLong max_chain_length)
  | fuel + 1, chain, current_md5, visited =>
    if current_md5 ∈ visited then
      .error (.chainCircular current_md5)
    else
      match lookup current_md5 with
      | none => .error (.chainMd5Missing current_md5)
      | some row =>
        match row.parent_md5 with
        | none => .ok (current_md5, chain.reverse)
        | some parent =>
          resolveChainLoop lookup max_chain_length fuel
            (chain ++ [mkChainLink current_md5 row]) parent (current_md5 :: visited)

/-- Embedding of `resolve_delta_chain_from_db` (delta.py lines 259-327):
walk back from `target_md5` to the root, returning the root md5 and the links
in root-to-target order. -/
def resolve_delta_chain_from_db (lookup : String → Option ChainRow)
    (target_md5 : String) (max_chain_length : Nat := 100) :
    Except DeltaError (String × List ChainLink) :=
  resolveChainLoop lookup max_chain_length max_chain_length [] target_md5 []

/-- The starting node of a walk description (the target md5). -/
def walkStart : List (String × ChainRow) → String
  | [] => ""
  | (md5, _) :: _ => md5

/-- The final node of a walk description (the root md5 for a `chainWalk`). -/
def walkRoot : List (String × ChainRow) → String
  | [] => ""
  | [(md5, _)] => md5
  | _ :: rest => walkRoot rest

/-- The chain links a walk description generates, in target-to-root
collection order (before the final reversal). -/
def walkLinks (specs : List (String × ChainRow)) : List ChainLink :=
  specs.dropLast.map (fun pr => mkChainLink pr.1 pr.2)

/-- The application loop of `reconstruct_file_from_chain` (delta.py lines
361-379), carrying the 0-based index `i` of the enumerate: a link with no
stored delta fails with the 1-based position and its md5; a patch failure is
re-raised with the same position data. -/
def applyChainLinks {D P : Type} (dmp : DmpLib D P) (codec : Codec) :
    List ChainLink → String → Nat → Except DeltaError String
  | [], current_content, _ => .ok current_content
  | link :: rest, current_content, i =>
    match link.delta with
    | none => .error (.chainMissingDelta (i + 1) link.file_md5)
    | some delta =>
      match apply_delta dmp codec current_content delta
          (link.delta_format = "human_readable") with
      | .error e => .error (.chainApplyFailed (i + 1) link.file_md5 e)
      | .ok next_content => applyChainLinks dmp codec rest next_content (i + 1)

/-- Embedding of `reconstruct_file_from_chain` (delta.py lines 330-381):
resolve the chain, return the template content unchanged for an empty chain,
otherwise apply the links in order. -/
def reconstruct_file_from_chain {D P : Type} (dmp : DmpLib D P) (codec : Codec)
    (lookup : String → Option ChainRow) (target_md5 : String)
    (template_content : String) (max_chain_length : Nat := 100) :
    Except DeltaError String :=
  match resolve_delta_chain_from_db lookup target_md5 max_chain_length with
  | .error e => .error e
  | .ok (_, chain) =>
    if chain = [] then
      .ok template_content
    else
      applyChainLinks dmp codec chain template_content 0

/-- A straight-line walk description used to state chain-resolution theorems:
`chainWalk lookup specs` holds when the rows of `specs` are exactly what
`lookup` returns along the walk, each row's parent is the next entry, and the
last entry is a root (no parent). -/
def chainWalk (lookup : String → Option ChainRow) :
    List (String × ChainRow) → Prop
  | [] => False
  | [(md5, row)] => lookup md5 = some row ∧ row.parent_md5 = none
  | (md5, row) :: (next, nrow) :: rest =>
      lookup md5 = some row ∧ row.parent_md5 = some next
        ∧ chainWalk lookup ((next, nrow) :: rest)

/-- A walk description that runs back into itself: the rows of `specs` walk
from the start node and the last row's parent is `back`, one of the walked
nodes.  Used to state cycle-detection theorems. -/
def cycleWalk (lookup : String → Option ChainRow) (back : String) :
    List (String × ChainRow) → Prop
  | [] => False
  | [(md5, row)] => lookup md5 = some row ∧ row.parent_md5 = some back
  | (md5, row) :: (next, nrow) :: rest =>
      lookup md5 = some row ∧ row.parent_md5 = some next
        ∧ cycleWalk lookup back ((next, nrow) :: rest)

/-- Toy database: a two-node acyclic chain, target `t` with parent the root
`r`. -/
def twoNodeDb : String → Option ChainRow := fun md5 =>
  if md5 = "t" then
    some { file_path := "p", parent_md5 := some "r",
           delta := some "d", delta_format := some "compressed" }
  else if md5 = "r" then
    some { file_path := "p", parent_md5 := none,
           delta := none, delta_format := none }
  else
    none

/-- Toy database: a single node whose parent pointer is itself (a reachable
cycle). -/
def selfLoopDb : String → Option ChainRow := fun md5 =>
  if md5 = "t" then
    some { file_path := "p", parent_md5 := some "t",
           delta := some "d", delta_format := some "compressed" }
  else
    none

/-- Toy database: target `t` whose parent is the root `r`, with no stored
delta on `t` (missing-delta scenario for reconstruction). -/
def missingDeltaDb : String → Option ChainRow := fun md5 =>
  if md5 = "t" then
    some { file_path := "p", parent_md5 := some "r",
           delta := none, delta_format := none }
  else if md5 = "r" then
    some { file_path := "p", parent_md5 := none,
           delta := none, delta_format := none }
  else
    none

/-! ### File record store (`lochness/models/files.py`) and replication
orchestrator (`lochness/tasks/push_data.py`)

The `files` table row is modelled with the columns used by the claims; the
`file_metadata` JSONB document is modelled by its `available_at` array, the
only key these queries touch.  The `data_push` table (whose model class is
not part of the sources) is modelled from the spec as rows keyed by
(sink id, path, fingerprint). -/

/-- A row of the `files` table (`File.init_db_table_query`), with
`file_metadata` represented by its `available_at` location-token array. -/
structure FileRow where
  file_name : String
  file_type : String
  file_size_mb : ℚ
  file_path : String
  file_m_time : Nat
  file_md5 : String
  available_at : List String
deriving DecidableEq, Repr

/-- Modelled from the spec: a PushRecord row of the `data_push` table, keyed
by (sink id, path, fingerprint); the `DataPush` model class is not among the
sources.  Spec: identity (`sink-id`, `path`, `fingerprint`), created once per
successful transfer. -/
structure PushRow where
  data_sink_id : Nat
  file_path : String
  file_md5 : String
deriving DecidableEq, Repr

/-- A row of the `data_pull` table restricted to the columns used by the
`get_files_to_push` query (join keys and project/site scope). -/
structure PullRow where
  file_path : String
  file_md5 : String
  project_id : String
  site_id : String
deriving DecidableEq, Repr

/-- The durable-store state touched by a successful push: the `files` table
and the `data_push` table. -/
structure StoreState where
  files : List FileRow
  pushes : List PushRow
deriving DecidableEq, Repr

/-- Effect on one `files` row of the UPDATE generated by
`File.remove_availability_query` (files.py lines 365-415): rows at the same
path with a different md5 that contain `location` in `available_at` have
every occurrence of `location` filtered out of the array; all other rows are
untouched. -/
def remove_availability_update (file_path : String) (current_md5 : String)
    (location : String) (row : FileRow) : FileRow :=
  if row.file_path = file_path ∧ row.file_md5 ≠ current_md5
      ∧ location ∈ row.available_at then
    { row with available_at := row.available_at.filter (fun e => e ≠ location) }
  else
    row

/-- Effect on one `files` row of the UPDATE generated by
`File.add_available_at_query` (files.py lines 427-461): if `location` is
already present in the in-memory file object's list, no query is generated
(no row changes); otherwise the row keyed by the object's (path, md5) gets
its metadata replaced by the in-memory metadata with `location` appended. -/
def add_available_at_update (file_obj : FileRow) (location : String)
    (row : FileRow) : FileRow :=
  if location ∈ file_obj.available_at then
    row
  else if row.file_path = file_obj.file_path ∧ row.file_md5 = file_obj.file_md5 then
    { row with available_at := file_obj.available_at ++ [location] }
  else
    row

/-- The single-transaction durable-store update committed by
`push_file_to_sink` on a successful sink push (push_data.py lines 360-395):
the queries list is (1) the `data_push` INSERT, (2) the
`remove_availability_query` UPDATE for other versions at the path, (3) the
`add_available_at_query` UPDATE for this version, executed together by
`db.execute_queries` (modelled from the spec as one atomic state map; the
`db` helper is not among the sources). -/
def push_success_transaction (st : StoreState) (file_obj : FileRow)
    (data_sink_id : Nat) : StoreState :=
  let ds_location := "ds:" ++ toString data_sink_id
  { pushes := st.pushes
      ++ [{ data_sink_id := data_sink_id,
            file_path := file_obj.file_path,
            file_md5 := file_obj.file_md5 }]
    files :=
      (st.files.map
          (remove_availability_update file_obj.file_path file_obj.file_md5
            ds_location)).map
        (add_available_at_update file_obj ds_location) }

/-- At most one fingerprint per path carries `location`: any two `files` rows
at the same path both listing `location` have the same md5. -/
def locUniquePerPath (files : List FileRow) (location : String) : Prop :=
  ∀ r1 ∈ files, ∀ r2 ∈ files,
    r1.file_path = r2.file_path →
    location ∈ r1.available_at → location ∈ r2.available_at →
    r1.file_md5 = r2.file_md5

/-- Embedding of the subquery scope of `File.get_files_to_push`
(files.py lines 314-329): a `files` row is in scope when it joins some
`data_pull` row on (path, md5) with the requested project and site (the LEFT
JOIN rows with no match are removed by the WHERE clause on the pull
columns). -/
def inPullScope (pulls : List PullRow) (project_id site_id : String)
    (f : FileRow) : Bool :=
  pulls.any fun p =>
    p.file_path = f.file_path && p.file_md5 = f.file_md5
      && p.project_id = project_id && p.site_id = site_id

/-- The `ROW_NUMBER() OVER (PARTITION BY file_path ORDER BY file_m_time DESC)
= 1` row of a path's partition: the first row of the partition carrying the
maximal modification time (ties are broken by an unspecified order in SQL;
list order here). -/
def latestAtPath (scopedRows : List FileRow) (path : String) : Option FileRow :=
  let partition := scopedRows.filter (fun r => r.file_path = path)
  partition.find? (fun r =>
    partition.all (fun other => other.file_m_time ≤ r.file_m_time))

/-- Whether a PushRecord for (sink, path, md5) exists, i.e. the outer LEFT
JOIN of `get_files_to_push` matches and the row is dropped by
`data_push.data_sink_id IS NULL`. -/
def hasPushRecord (pushes : List PushRow) (data_sink_id : Nat)
    (f : FileRow) : Bool :=
  pushes.any fun q =>
    q.data_sink_id = data_sink_id && q.file_path = f.file_path
      && q.file_md5 = f.file_md5

/-- Embedding of `File.get_files_to_push` (files.py lines 302-363): per
distinct path of the project/site scope, the single most-recent row
(`rn = 1`), kept only when it has no PushRecord for the sink. -/
def get_files_to_push (files : List FileRow) (pulls : List PullRow)
    (pushes : List PushRow) (project_id site_id : String)
    (data_sink_id : Nat) : List FileRow :=
  let scopedRows := files.filter (inPullScope pulls project_id site_id)
  let paths := (scopedRows.map (fun r => r.file_path)).dedup
  paths.filterMap fun p =>
    match latestAtPath scopedRows p with
    | none => none
    | some w => if hasPushRecord pushes data_sink_id w then none else some w

/-! ### Source resolution (`resolve_file_source`, push_data.py lines 102-201) -/

/-- Modelled from the spec: the fields of a `DataSink` row used by source
resolution (`DataSink.get_data_sink_by_id` and `is_active` are not among the
sources).  Spec: a sink candidate must exist and be active. -/
structure SinkRec where
  data_sink_id : Nat
  data_sink_name : String
  is_active : Bool
deriving DecidableEq, Repr

/-- Result of file source resolution, mirroring `FileSourceResult`
(push_data.py lines 65-99).  `source_type` is the Python string tag.  The
skip reason is a message built from the hostname and the `available_at` list;
it is modelled by the data interpolated into it. -/
structure FileSourceResult where
  source_type : String
  file_path : Option String
  source_data_sink : Option SinkRec
  source_data_push : Option PushRow
  skip_reason : Option (String × List String)
deriving DecidableEq, Repr

/-- Digit-string parse for `int(...)` applied to a `ds:<id>` field: all
characters must be decimal digits (the only shapes these location tokens
carry). -/
def parseNatDigits (cs : List Char) : Option Nat :=
  if cs = [] then
    none
  else if cs.all (fun c => c.isDigit) then
    some (cs.foldl (fun acc c => acc * 10 + (c.toNat - 48)) 0)
  else
    none

/-- The sink-id collection pass of `resolve_file_source` (push_data.py lines
143-153): keep locations of the form `ds:<int>` whose id parses
(`int(location.split(":")[1])`, the field between the first and second
colon) and differs from the target sink, in availability-list order; the
`location.startswith("ds:")` guard is the three-character prefix test. -/
def candidateSinkIds (available_at : List String)
    (target_data_sink_id : Nat) : List Nat :=
  available_at.filterMap fun location =>
    if location.data.take 3 = ['d', 's', ':'] then
      let field := ((location.data.dropWhile (fun c => c != ':')).tail).takeWhile
        (fun c => c != ':')
      match parseNatDigits field with
      | some sink_id =>
          if sink_id ≠ target_data_sink_id then some sink_id else none
      | none => none
    else
      none

/-- The source-sink search loop of `resolve_file_source` (push_data.py lines
156-189): for each candidate id in order, the sink must exist
(`get_data_sink_by_id`), be active, and hold a `DataPush` record for the
(path, md5); the first candidate passing all three checks is the source. -/
def findRemoteSource (sinkById : Nat → Option SinkRec)
    (getPushRec : Nat → String → String → Option PushRow)
    (file_path file_md5 : String) :
    List Nat → Option (SinkRec × PushRow)
  | [] => none
  | sink_id :: rest =>
    match sinkById sink_id with
    | none => findRemoteSource sinkById getPushRec file_path file_md5 rest
    | some source_sink =>
      if source_sink.is_active = false then
        findRemoteSource sinkById getPushRec file_path file_md5 rest
      else
        match getPushRec sink_id file_path file_md5 with
        | none => findRemoteSource sinkById getPushRec file_path file_md5 rest
        | some source_push => some (source_sink, source_push)

/-- Embedding of `resolve_file_source` (push_data.py lines 102-201).
`sinkById` models `DataSink.get_data_sink_by_id` and `getPushRec` models
`DataPush.get_data_push` (both modelled from the spec, their classes not
being among the sources).  The `available_at` metadata value is taken already
normalized to a list (the source coerces a string to a one-element list and
anything else to an empty list). -/
def resolve_file_source (current_hostname : String)
    (sinkById : Nat → Option SinkRec)
    (getPushRec : Nat → String → String → Option PushRow)
    (file_path file_md5 : String) (available_at : List String)
    (target_data_sink_id : Nat) : FileSourceResult :=
  let hostname_key := "hn:" ++ current_hostname
  if hostname_key ∈ available_at then
    { source_type := "local", file_path := some file_path,
      source_data_sink := none, source_data_push := none, skip_reason := none }
  else
    match findRemoteSource sinkById getPushRec file_path file_md5
        (candidateSinkIds available_at target_data_sink_id) with
    | some (source_sink, source_push) =>
      { source_type := "remote", file_path := none,
        source_data_sink := some source_sink,
        source_data_push := some source_push, skip_reason := none }
    | none =>
      { source_type := "skip", file_path := none,
        source_data_sink := none, source_data_push := none,
        skip_reason := some (current_hostname, available_at) }

/-- A candidate sink id is a valid pull source when the sink exists, is
active, and holds a push record for the file. -/
def validRemoteSource (sinkById : Nat → Option SinkRec)
    (getPushRec : Nat → String → String → Option PushRow)
    (file_path file_md5 : String) (sink_id : Nat) : Prop :=
  ∃ s, sinkById sink_id = some s ∧ s.is_active = true
    ∧ ∃ pr, getPushRec sink_id file_path file_md5 = some pr

/-- Toy sink directory: only sink 1 exists and is active. -/
def toySinkById : Nat → Option SinkRec := fun sink_id =>
  if sink_id = 1 then some { data_sink_id := 1, data_sink_name := "s1",
                             is_active := true }
  else none

/-- Toy push-record directory: sink 1 holds every file. -/
def toyGetPushRec : Nat → String → String → Option PushRow :=
  fun sink_id file_path file_md5 =>
    if sink_id = 1 then
      some { data_sink_id := 1, file_path := file_path, file_md5 := file_md5 }
    else none

/-- Toy `files` row: the older version at path `p` (fingerprint `f1`), held
locally and at sink 7. -/
def fileRowV1 : FileRow :=
  { file_name := "b.txt", file_type := ".txt", file_size_mb := 1,
    file_path := "p", file_m_time := 1, file_md5 := "f1",
    available_at := ["hn:node1", "ds:7"] }

/-- Toy `files` row: the newer version at path `p` (fingerprint `f2`), held
locally only. -/
def fileRowV2 : FileRow :=
  { file_name := "b.txt", file_type := ".txt", file_size_mb := 1,
    file_path := "p", file_m_time := 2, file_md5 := "f2",
    available_at := ["hn:node1"] }

/-- Toy `data_pull` rows putting both versions in the (pr, si) scope. -/
def pullRowsV : List PullRow :=
  [{ file_path := "p", file_md5 := "f1", project_id := "pr", site_id := "si" },
   { file_path := "p", file_md5 := "f2", project_id := "pr", site_id := "si" }]

/-! ## Theorems -/

/-- Helper: `apply_delta` when the decode step fails. -/
theorem apply_delta_eq_of_decode_none {D P : Type} (dmp : DmpLib D P)
    (codec : Codec) (original delta : String) (human_readable : Bool)
    (hdec : decode_delta_text codec delta human_readable = none) :
    apply_delta dmp codec original delta human_readable
      = .error .patchDecode := by
  unfold apply_delta
  simp only [hdec]

/-- Helper: `apply_delta` when the patch text does not parse. -/
theorem apply_delta_eq_of_parse_none {D P : Type} (dmp : DmpLib D P)
    (codec : Codec) (original delta : String) (human_readable : Bool)
    (pt : String)
    (hdec : decode_delta_text codec delta human_readable = some pt)
    (hparse : dmp.patch_fromText pt = none) :
    apply_delta dmp codec original delta human_readable
      = .error .patchInvalidFormat := by
  unfold apply_delta
  simp only [hdec, hparse]

/-- Helper: `apply_delta` when every hunk applies. -/
theorem apply_delta_eq_of_all_ok {D P : Type} (dmp : DmpLib D P)
    (codec : Codec) (original delta : String) (human_readable : Bool)
    (pt : String) (patches : P)
    (hdec : decode_delta_text codec delta human_readable = some pt)
    (hparse : dmp.patch_fromText pt = some patches)
    (hflags : (dmp.patch_apply patches original).2.all (fun b => b) = true) :
    apply_delta dmp codec original delta human_readable
      = .ok (dmp.patch_apply patches original).1 := by
  unfold apply_delta
  simp only [hdec, hparse, hflags, if_true]

/-- Helper: `apply_delta` when some hunk fails. -/
theorem apply_delta_eq_of_hunk_failure {D P : Type} (dmp : DmpLib D P)
    (codec : Codec) (original delta : String) (human_readable : Bool)
    (pt : String) (patches : P)
    (hdec : decode_delta_text codec delta human_readable = some pt)
    (hparse : dmp.patch_fromText pt = some patches)
    (hflags : (dmp.patch_apply patches original).2.all (fun b => b) = false) :
    apply_delta dmp codec original delta human_readable
      = .error (.patchHunksFailed ((dmp.patch_apply patches original).2.count false)
          (dmp.patch_apply patches original).2.length) := by
  unfold apply_delta
  simp only [hdec, hparse, hflags]
  simp

/-- Helper: in compact mode `compute_delta` encodes the serialized patches. -/
theorem compute_delta_eq {D P : Type} (dmp : DmpLib D P) (codec : Codec)
    (A B : String) (human_readable : Bool) :
    compute_delta dmp codec A B human_readable
      = (if human_readable then
          dmp.patch_toText (dmp.patch_make A (dmp.diff_cleanupEfficiency (dmp.diff_main A B)))
        else
          codec.b64encode (codec.compress
            (dmp.patch_toText (dmp.patch_make A
              (dmp.diff_cleanupEfficiency (dmp.diff_main A B)))))) := by
  unfold compute_delta
  rfl

/-- C3: for all strings A and B and both encoding flags, applying the delta
computed from A to B onto A reproduces B exactly.  The diff-match-patch and
zlib/base64 collaborators are abstract; their documented contracts at the
values actually produced (serialization parses back, the made patch applies
cleanly to the exact original, decode inverts encode) are hypotheses. -/
theorem apply_compute_delta_roundtrip {D P : Type} (dmp : DmpLib D P)
    (codec : Codec) (A B : String) (human_readable : Bool)
    (patches : P) (pt : String)
    (hpatches : dmp.patch_make A (dmp.diff_cleanupEfficiency (dmp.diff_main A B)) = patches)
    (hpt : dmp.patch_toText patches = pt)
    (hb64 : codec.b64decode (codec.b64encode (codec.compress pt))
      = some (codec.compress pt))
    (hzlib : codec.decompress (codec.compress pt) = some pt)
    (hparse : dmp.patch_fromText pt = some patches)
    (happly : (dmp.patch_apply patches A).1 = B)
    (hflags : (dmp.patch_apply patches A).2.all (fun b => b) = true) :
    apply_delta dmp codec A (compute_delta dmp codec A B human_readable)
      human_readable = .ok B := by
  have hcomp := compute_delta_eq dmp codec A B human_readable
  rw [hpatches, hpt] at hcomp
  cases human_readable with
  | true =>
    rw [if_pos rfl] at hcomp
    rw [apply_delta_eq_of_all_ok dmp codec A _ true pt patches
      (by rw [hcomp]; rfl) hparse hflags, happly]
  | false =>
    rw [if_neg (by simp)] at hcomp
    have hdec : decode_delta_text codec
        (compute_delta dmp codec A B false) false = some pt := by
      unfold decode_delta_text
      rw [hcomp]
      simp only [Bool.false_eq_true, if_false, hb64]
      simp [hzlib]
    rw [apply_delta_eq_of_all_ok dmp codec A _ false pt patches
      hdec hparse hflags, happly]

/-- C3 witness: the round trip evaluated on the executable toy library
instances at A = "ab", B = "cd" in the compact encoding. -/
theorem apply_compute_delta_roundtrip_witness :
    apply_delta toyDmp toyCodec "ab" (compute_delta toyDmp toyCodec "ab" "cd" false)
      false = .ok "cd" :=
  apply_compute_delta_roundtrip toyDmp toyCodec "ab" "cd" false ("ab", "cd")
    "ab|cd" (by decide) (by decide) (by decide) (by decide) (by decide)
    (by decide) (by decide)

/-- C7: `apply_delta` fails exactly when (a) in compact mode the delta cannot
be decoded/decompressed, (b) the patch text cannot parse, or (c) some hunk
fails to apply; every failure is a `DeltaPatchError`-class error, and a
successful result is always the full library output with every hunk flag
true — never a partially-patched result. -/
theorem apply_delta_error_conditions {D P : Type} (dmp : DmpLib D P)
    (codec : Codec) (original delta : String) (human_readable : Bool) :
    (∀ e, apply_delta dmp codec original delta human_readable = .error e →
      e.isPatchError = true)
    ∧ ((∃ e, apply_delta dmp codec original delta human_readable = .error e)
        ↔ (human_readable = false
              ∧ decode_delta_text codec delta human_readable = none)
          ∨ (∃ pt, decode_delta_text codec delta human_readable = some pt
              ∧ dmp.patch_fromText pt = none)
          ∨ (∃ pt patches,
              decode_delta_text codec delta human_readable = some pt
              ∧ dmp.patch_fromText pt = some patches
              ∧ (dmp.patch_apply patches original).2.all (fun b => b)
                  = false))
    ∧ (∀ s, apply_delta dmp codec original delta human_readable = .ok s →
        ∃ pt patches, decode_delta_text codec delta human_readable = some pt
          ∧ dmp.patch_fromText pt = some patches
          ∧ (dmp.patch_apply patches original).2.all (fun b => b) = true
          ∧ s = (dmp.patch_apply patches original).1) := by
  cases hdec : decode_delta_text codec delta human_readable with
  | none =>
    have heq := apply_delta_eq_of_decode_none dmp codec original delta
      human_readable hdec
    have hhr : human_readable = false := by
      cases human_readable with
      | false => rfl
      | true => simp [decode_delta_text] at hdec
    refine ⟨?_, ?_, ?_⟩
    · intro e he
      rw [heq] at he
      cases he
      rfl
    · constructor
      · intro _
        exact Or.inl ⟨hhr, rfl⟩
      · intro _
        exact ⟨.patchDecode, heq⟩
    · intro s hs
      rw [heq] at hs
      cases hs
  | some pt =>
    cases hparse : dmp.patch_fromText pt with
    | none =>
      have heq := apply_delta_eq_of_parse_none dmp codec original delta
        human_readable pt hdec hparse
      refine ⟨?_, ?_, ?_⟩
      · intro e he
        rw [heq] at he
        cases he
        rfl
      · constructor
        · intro _
          exact Or.inr (Or.inl ⟨pt, rfl, hparse⟩)
        · intro _
          exact ⟨.patchInvalidFormat, heq⟩
      · intro s hs
        rw [heq] at hs
        cases hs
    | some patches =>
      cases hall : (dmp.patch_apply patches original).2.all (fun b => b) with
      | true =>
        have heq := apply_delta_eq_of_all_ok dmp codec original delta
          human_readable pt patches hdec hparse hall
        refine ⟨?_, ?_, ?_⟩
        · intro e he
          rw [heq] at he
          cases he
        · constructor
          · intro ⟨e, he⟩
            rw [heq] at he
            cases he
          · rintro (⟨_, hnone⟩ | ⟨pt2, hpt2, hp2⟩ | ⟨pt2, patches2, hpt2, hp2, hall2⟩)
            · cases hnone
            · cases hpt2
              rw [hparse] at hp2
              cases hp2
            · cases hpt2
              rw [hparse] at hp2
              cases hp2
              rw [hall] at hall2
              cases hall2
        · intro s hs
          rw [heq] at hs
          cases hs
          exact ⟨pt, patches, rfl, hparse, hall, rfl⟩
      | false =>
        have heq := apply_delta_eq_of_hunk_failure dmp codec original delta
          human_readable pt patches hdec hparse hall
        refine ⟨?_, ?_, ?_⟩
        · intro e he
          rw [heq] at he
          cases he
          rfl
        · constructor
          · intro _
            exact Or.inr (Or.inr ⟨pt, patches, rfl, hparse, hall⟩)
          · intro _
            exact ⟨_, heq⟩
        · intro s hs
          rw [heq] at hs
          cases hs

/-- C8 counterexample: `convert_delta_format` toward human-readable is not
idempotent on a nested encoding — a compact delta whose decoded text is
itself a valid compact encoding gets decoded twice.  The codec here is
partial (decode fails on unmarked strings) exactly like real base64/zlib. -/
theorem convert_delta_format_idem_counterexample :
    convert_delta_format cexCodec
        (convert_delta_format cexCodec cexNestedDelta true) true
      ≠ convert_delta_format cexCodec cexNestedDelta true := by
  decide

/-- C8 amended: `convert_delta_format` is a no-op on values already in the
target encoding and idempotent toward human-readable, under the
defensive-detection assumption the spec states: a value counts as compact
exactly when it decodes, so the human-readable result must not itself
decode.  (1) already-compact to compact is unchanged; (2)-(3) undecodable
input to human-readable is unchanged; (4) double conversion to
human-readable equals single conversion whenever the first result does not
itself decode-and-decompress. -/
theorem convert_delta_format_defensive (codec : Codec) (d : String) :
    (∀ l, codec.b64decode d = some l → convert_delta_format codec d false = d)
    ∧ (codec.b64decode d = none → convert_delta_format codec d true = d)
    ∧ ((codec.b64decode d).bind codec.decompress = none →
        convert_delta_format codec d true = d)
    ∧ ((codec.b64decode (convert_delta_format codec d true)).bind
          codec.decompress = none →
        convert_delta_format codec (convert_delta_format codec d true) true
          = convert_delta_format codec d true) := by
  refine ⟨?_, ?_, ?_, ?_⟩
  · intro l hl
    simp [convert_delta_format, hl]
  · intro hnone
    simp [convert_delta_format, hnone]
  · intro hnone
    simp [convert_delta_format, hnone]
  · intro hnone
    generalize ht : convert_delta_format codec d true = t at hnone ⊢
    simp [convert_delta_format, hnone]

/-- C8 amended witness: on the toy partial codec, a marked compact value is
returned unchanged by compact conversion, and converting the human-readable
text "x" to human-readable twice equals converting it once. -/
theorem convert_delta_format_defensive_witness :
    convert_delta_format cexCodec
        (cexCodec.b64encode (cexCodec.compress "x")) false
        = cexCodec.b64encode (cexCodec.compress "x")
    ∧ convert_delta_format cexCodec (convert_delta_format cexCodec "x" true) true
        = convert_delta_format cexCodec "x" true := by
  constructor
  · exact (convert_delta_format_defensive cexCodec
      (cexCodec.b64encode (cexCodec.compress "x"))).1 [0, 120] (by decide)
  · exact (convert_delta_format_defensive cexCodec "x").2.2.2 (by decide)

/-- C9 counterexample: with an empty modified content and threshold -1,
`is_delta_efficient` returns true although the claimed size ratio (with the
division-by-zero value 0) is not at most the threshold: the code
special-cases an empty modified content to true regardless of the
threshold. -/
theorem is_delta_efficient_ratio_counterexample :
    ¬ ((is_delta_efficient toyDmp toyCodec "" "" (-1) = true)
        ↔ (((compute_delta toyDmp toyCodec "" "" false).utf8ByteSize : ℚ)
            / (("" : String).utf8ByteSize : ℚ) ≤ -1)) := by
  intro h
  have h2 := h.mp (by decide)
  have hz0 : ("" : String).utf8ByteSize = 0 := rfl
  have hz : (("" : String).utf8ByteSize : ℚ) = 0 := by
    rw [hz0]
    norm_num
  rw [hz, div_zero] at h2
  norm_num at h2

/-- C9 amended: `is_delta_efficient` returns true iff the modified content is
empty (the special case) or the byte-size ratio of the compact delta to the
modified content is at most the threshold. -/
theorem is_delta_efficient_characterization {D P : Type} (dmp : DmpLib D P)
    (codec : Codec) (original modified : String) (threshold : ℚ) :
    is_delta_efficient dmp codec original modified threshold = true
      ↔ (modified.utf8ByteSize = 0
          ∨ ((compute_delta dmp codec original modified false).utf8ByteSize : ℚ)
              / (modified.utf8ByteSize : ℚ) ≤ threshold) := by
  unfold is_delta_efficient
  by_cases h : modified.utf8ByteSize = 0 <;> simp [h]

/-- Helper: an acyclic walk whose nodes avoid the visited set and whose link
count is below the remaining fuel resolves to its root and its collected
links appended to the accumulator, reversed. -/
theorem resolveChainLoop_ok (lookup : String → Option ChainRow)
    (max_chain_length : Nat) :
    ∀ (specs : List (String × ChainRow)) (fuel : Nat) (chain : List ChainLink)
      (visited : List String),
    chainWalk lookup specs →
    (specs.map Prod.fst).Nodup →
    (∀ m ∈ specs.map Prod.fst, m ∉ visited) →
    specs.length - 1 < fuel →
    resolveChainLoop lookup max_chain_length fuel chain (walkStart specs) visited
      = .ok (walkRoot specs, (chain ++ walkLinks specs).reverse) := by
  intro specs
  induction specs with
  | nil =>
    intro fuel chain visited hwalk
    simp [chainWalk] at hwalk
  | cons hd tl ih =>
    obtain ⟨md5, row⟩ := hd
    cases tl with
    | nil =>
      intro fuel chain visited hwalk hnodup hdisj hfuel
      obtain ⟨hlk, hroot⟩ := hwalk
      cases fuel with
      | zero => simp at hfuel
      | succ f =>
        have hmem : md5 ∉ visited := hdisj md5 (by simp)
        simp only [walkStart, resolveChainLoop]
        rw [if_neg hmem]
        simp only [hlk, hroot]
        simp [walkRoot, walkLinks]
    | cons nxt rest =>
      obtain ⟨nmd5, nrow⟩ := nxt
      intro fuel chain visited hwalk hnodup hdisj hfuel
      obtain ⟨hlk, hpar, hwalk2⟩ := hwalk
      cases fuel with
      | zero => simp at hfuel
      | succ f =>
        have hmem : md5 ∉ visited := hdisj md5 (by simp)
        have hnodup2 : (((nmd5, nrow) :: rest).map Prod.fst).Nodup := by
          simp only [List.map_cons] at hnodup ⊢
          exact hnodup.of_cons
        have hheadnm : md5 ∉ ((nmd5, nrow) :: rest).map Prod.fst := by
          simp only [List.map_cons] at hnodup
          exact (List.nodup_cons.mp hnodup).1
        have hdisj2 : ∀ m ∈ ((nmd5, nrow) :: rest).map Prod.fst,
            m ∉ md5 :: visited := by
          intro m hm
          simp only [List.mem_cons]
          push_neg
          refine ⟨?_, ?_⟩
          · intro hEq
            exact hheadnm (hEq ▸ hm)
          · refine hdisj m ?_
            simp only [List.map_cons, List.mem_cons]
            right
            simpa using hm
        have hfuel2 : (((nmd5, nrow) :: rest).map Prod.fst).length - 1 < f := by
          simp only [List.length_map, List.length_cons] at hfuel ⊢
          omega
        have hih := ih f (chain ++ [mkChainLink md5 row]) (md5 :: visited)
          hwalk2 hnodup2 hdisj2 (by simp only [List.length_map] at hfuel2; omega)
        simp only [walkStart, resolveChainLoop]
        rw [if_neg hmem]
        simp only [hlk, hpar]
        simp only [walkStart] at hih
        rw [hih]
        simp [walkRoot, walkLinks, List.dropLast]

/-- Helper: an acyclic walk whose link count is at least the remaining fuel
runs the loop out of budget: the result is the too-long error, even though a
root exists further down the chain. -/
theorem resolveChainLoop_too_long (lookup : String → Option ChainRow)
    (max_chain_length : Nat) :
    ∀ (specs : List (String × ChainRow)) (fuel : Nat) (chain : List ChainLink)
      (visited : List String),
    chainWalk lookup specs →
    (specs.map Prod.fst).Nodup →
    (∀ m ∈ specs.map Prod.fst, m ∉ visited) →
    fuel ≤ specs.length - 1 →
    resolveChainLoop lookup max_chain_length fuel chain (walkStart specs) visited
      = .error (.chainTooLong max_chain_length) := by
  intro specs
  induction specs with
  | nil =>
    intro fuel chain visited hwalk
    simp [chainWalk] at hwalk
  | cons hd tl ih =>
    obtain ⟨md5, row⟩ := hd
    cases tl with
    | nil =>
      intro fuel chain visited hwalk hnodup hdisj hfuel
      have hf0 : fuel = 0 := by
        simp only [List.length_cons, List.length_nil] at hfuel
        omega
      subst hf0
      simp only [resolveChainLoop]
    | cons nxt rest =>
      obtain ⟨nmd5, nrow⟩ := nxt
      intro fuel chain visited hwalk hnodup hdisj hfuel
      obtain ⟨hlk, hpar, hwalk2⟩ := hwalk
      cases fuel with
      | zero => simp only [resolveChainLoop]
      | succ f =>
        have hmem : md5 ∉ visited := hdisj md5 (by simp)
        have hnodup2 : (((nmd5, nrow) :: rest).map Prod.fst).Nodup := by
          simp only [List.map_cons] at hnodup ⊢
          exact hnodup.of_cons
        have hheadnm : md5 ∉ ((nmd5, nrow) :: rest).map Prod.fst := by
          simp only [List.map_cons] at hnodup
          exact (List.nodup_cons.mp hnodup).1
        have hdisj2 : ∀ m ∈ ((nmd5, nrow) :: rest).map Prod.fst,
            m ∉ md5 :: visited := by
          intro m hm
          simp only [List.mem_cons]
          push_neg
          refine ⟨?_, ?_⟩
          · intro hEq
            exact hheadnm (hEq ▸ hm)
          · refine hdisj m ?_
            simp only [List.map_cons, List.mem_cons]
            right
            simpa using hm
        have hfuel2 : f ≤ ((nmd5, nrow) :: rest).length - 1 := by
          simp only [List.length_cons] at hfuel ⊢
          omega
        have hih := ih f (chain ++ [mkChainLink md5 row]) (md5 :: visited)
          hwalk2 hnodup2 hdisj2 hfuel2
        simp only [walkStart, resolveChainLoop]
        rw [if_neg hmem]
        simp only [hlk, hpar]
        simp only [walkStart] at hih
        exact hih

/-- Helper: a walk that runs back into one of its own nodes produces the
circular-reference error when the revisit happens within the fuel budget,
and the too-long error otherwise; it never returns a chain. -/
theorem resolveChainLoop_cycle (lookup : String → Option ChainRow)
    (max_chain_length : Nat) (back : String) :
    ∀ (specs : List (String × ChainRow)) (fuel : Nat) (chain : List ChainLink)
      (visited : List String),
    cycleWalk lookup back specs →
    (specs.map Prod.fst).Nodup →
    (∀ m ∈ specs.map Prod.fst, m ∉ visited) →
    (back ∈ specs.map Prod.fst ∨ back ∈ visited) →
    resolveChainLoop lookup max_chain_length fuel chain (walkStart specs) visited
      = (if specs.length < fuel then .error (.chainCircular back)
         else .error (.chainTooLong max_chain_length)) := by
  intro specs
  induction specs with
  | nil =>
    intro fuel chain visited hwalk
    simp [cycleWalk] at hwalk
  | cons hd tl ih =>
    obtain ⟨md5, row⟩ := hd
    cases tl with
    | nil =>
      intro fuel chain visited hwalk hnodup hdisj hback
      obtain ⟨hlk, hpar⟩ := hwalk
      have hbk : back = md5 ∨ back ∈ visited := by
        rcases hback with hb | hb
        · left
          simpa using hb
        · right
          exact hb
      cases fuel with
      | zero =>
        simp only [resolveChainLoop, List.length_cons, List.length_nil]
        rw [if_neg (by omega)]
      | succ f =>
        have hmem : md5 ∉ visited := hdisj md5 (by simp)
        simp only [walkStart, resolveChainLoop]
        rw [if_neg hmem]
        simp only [hlk, hpar]
        cases f with
        | zero =>
          simp only [resolveChainLoop, List.length_cons, List.length_nil]
          rw [if_neg (by omega)]
        | succ g =>
          have hbmem : back ∈ md5 :: visited := by
            rcases hbk with hb | hb
            · simp [hb]
            · simp [hb]
          simp only [resolveChainLoop]
          rw [if_pos hbmem]
          simp only [List.length_cons, List.length_nil]
          rw [if_pos (by omega)]
    | cons nxt rest =>
      obtain ⟨nmd5, nrow⟩ := nxt
      intro fuel chain visited hwalk hnodup hdisj hback
      obtain ⟨hlk, hpar, hwalk2⟩ := hwalk
      cases fuel with
      | zero =>
        simp only [resolveChainLoop, List.length_cons]
        rw [if_neg (by omega)]
      | succ f =>
        have hmem : md5 ∉ visited := hdisj md5 (by simp)
        have hnodup2 : (((nmd5, nrow) :: rest).map Prod.fst).Nodup := by
          simp only [List.map_cons] at hnodup ⊢
          exact hnodup.of_cons
        have hheadnm : md5 ∉ ((nmd5, nrow) :: rest).map Prod.fst := by
          simp only [List.map_cons] at hnodup
          exact (List.nodup_cons.mp hnodup).1
        have hdisj2 : ∀ m ∈ ((nmd5, nrow) :: rest).map Prod.fst,
            m ∉ md5 :: visited := by
          intro m hm
          simp only [List.mem_cons]
          push_neg
          refine ⟨?_, ?_⟩
          · intro hEq
            exact hheadnm (hEq ▸ hm)
          · refine hdisj m ?_
            simp only [List.map_cons, List.mem_cons]
            right
            simpa using hm
        have hback2 : back ∈ ((nmd5, nrow) :: rest).map Prod.fst
            ∨ back ∈ md5 :: visited := by
          rcases hback with hb | hb
          · simp only [List.map_cons, List.mem_cons] at hb
            rcases hb with hb | hb
            · right
              simp [hb]
            · left
              simp only [List.map_cons, List.mem_cons]
              exact hb
          · right
            simp [hb]
        have hih := ih f (chain ++ [mkChainLink md5 row]) (md5 :: visited)
          hwalk2 hnodup2 hdisj2 hback2
        simp only [walkStart, resolveChainLoop]
        rw [if_neg hmem]
        simp only [hlk, hpar]
        simp only [walkStart] at hih
        rw [hih]
        by_cases hlt : ((nmd5, nrow) :: rest).length < f
        · rw [if_pos hlt, if_pos (by simp only [List.length_cons] at hlt ⊢; omega)]
        · rw [if_neg hlt, if_neg (by simp only [List.length_cons] at hlt ⊢; omega)]

/-- C5 counterexample: an acyclic one-link chain resolved with
`max_chain_length = 1` fails with the too-long error although its number of
delta links (1) does not exceed the bound — the loop guard
`len(chain) < max_chain_length` exits before the root can be examined. -/
theorem resolve_delta_chain_at_bound_counterexample :
    twoNodeDb "t" = some { file_path := "p", parent_md5 := some "r",
                           delta := some "d", delta_format := some "compressed" }
    ∧ twoNodeDb "r" = some { file_path := "p", parent_md5 := none,
                             delta := none, delta_format := none }
    ∧ resolve_delta_chain_from_db twoNodeDb "t" 1
        = .error (.chainTooLong 1) := by
  refine ⟨by decide, by decide, by decide⟩

/-- C5 amended: resolving an acyclic chain succeeds (returning the root and
the links in root-to-target order) exactly when its number of delta links is
strictly below the configured bound; with links at or above the bound it
fails with the too-long `DeltaChainError` instead of looping unbounded. -/
theorem resolve_delta_chain_bound (lookup : String → Option ChainRow)
    (specs : List (String × ChainRow)) (max_chain_length : Nat)
    (hwalk : chainWalk lookup specs)
    (hnodup : (specs.map Prod.fst).Nodup) :
    (specs.length - 1 < max_chain_length →
      resolve_delta_chain_from_db lookup (walkStart specs) max_chain_length
        = .ok (walkRoot specs, (walkLinks specs).reverse))
    ∧ (max_chain_length ≤ specs.length - 1 →
      resolve_delta_chain_from_db lookup (walkStart specs) max_chain_length
        = .error (.chainTooLong max_chain_length)) := by
  constructor
  · intro hlt
    unfold resolve_delta_chain_from_db
    have h := resolveChainLoop_ok lookup max_chain_length specs max_chain_length
      [] [] hwalk hnodup (by intro m _; simp) hlt
    simpa using h
  · intro hge
    unfold resolve_delta_chain_from_db
    exact resolveChainLoop_too_long lookup max_chain_length specs
      max_chain_length [] [] hwalk hnodup (by intro m _; simp) hge

/-- C5 amended witness: the two-node chain resolves under the default bound
100 to its root and single link. -/
theorem resolve_delta_chain_bound_witness :
    resolve_delta_chain_from_db twoNodeDb "t" 100
      = .ok ("r", [{ file_md5 := "t", file_path := "p", delta := some "d",
                     delta_format := "compressed" }]) := by
  have h := (resolve_delta_chain_bound twoNodeDb
    [("t", { file_path := "p", parent_md5 := some "r", delta := some "d",
             delta_format := some "compressed" }),
     ("r", { file_path := "p", parent_md5 := none, delta := none,
             delta_format := none })] 100
    (by refine ⟨by decide, by decide, by decide, by decide⟩)
    (by decide)).1 (by norm_num)
  simpa [walkStart, walkRoot, walkLinks, mkChainLink] using h

/-- C6 counterexample: a self-loop (target is its own parent) resolved with
`max_chain_length = 1` exhausts the loop budget before the revisit and fails
with the too-long error, not the circular-reference error, although the
parent-pointer graph reachable from the target revisits a fingerprint. -/
theorem resolve_delta_chain_cycle_beyond_bound_counterexample :
    selfLoopDb "t" = some { file_path := "p", parent_md5 := some "t",
                            delta := some "d", delta_format := some "compressed" }
    ∧ resolve_delta_chain_from_db selfLoopDb "t" 1 = .error (.chainTooLong 1)
    ∧ resolve_delta_chain_from_db selfLoopDb "t" 1
        ≠ .error (.chainCircular "t") := by
  refine ⟨by decide, by decide, by decide⟩

/-- C6 amended: a walk that revisits one of its own fingerprints fails with
the circular-reference `DeltaChainError` naming the revisited fingerprint
whenever the revisit happens within the configured bound; when the budget
runs out first it fails with the too-long error; in either case no chain (not
even a truncated one) is returned. -/
theorem resolve_delta_chain_cycle (lookup : String → Option ChainRow)
    (specs : List (String × ChainRow)) (back : String) (max_chain_length : Nat)
    (hwalk : cycleWalk lookup back specs)
    (hnodup : (specs.map Prod.fst).Nodup)
    (hback : back ∈ specs.map Prod.fst) :
    (specs.length < max_chain_length →
      resolve_delta_chain_from_db lookup (walkStart specs) max_chain_length
        = .error (.chainCircular back))
    ∧ (max_chain_length ≤ specs.length →
      resolve_delta_chain_from_db lookup (walkStart specs) max_chain_length
        = .error (.chainTooLong max_chain_length)) := by
  have h := resolveChainLoop_cycle lookup max_chain_length back specs
    max_chain_length [] [] hwalk hnodup (by intro m _; simp) (Or.inl hback)
  constructor
  · intro hlt
    unfold resolve_delta_chain_from_db
    rw [h, if_pos hlt]
  · intro hge
    unfold resolve_delta_chain_from_db
    rw [h, if_neg (by omega)]

/-- C6 amended witness: the self-loop under the default bound 100 is detected
as a circular reference naming the revisited fingerprint. -/
theorem resolve_delta_chain_cycle_witness :
    resolve_delta_chain_from_db selfLoopDb "t" 100
      = .error (.chainCircular "t") := by
  have h := (resolve_delta_chain_cycle selfLoopDb
    [("t", { file_path := "p", parent_md5 := some "t", delta := some "d",
             delta_format := some "compressed" })] "t" 100
    (by refine ⟨by decide, by decide⟩) (by decide) (by decide)).1 (by norm_num)
  simpa [walkStart] using h

/-- Helper: appending a link with no stored delta after a prefix that applies
cleanly makes the application loop fail with the missing-delta error at the
1-based position right after the prefix. -/
theorem applyChainLinks_missing {D P : Type} (dmp : DmpLib D P) (codec : Codec) :
    ∀ (pre : List ChainLink) (content : String) (i : Nat) (c : String)
      (bad : ChainLink) (post : List ChainLink),
    applyChainLinks dmp codec pre content i = .ok c →
    bad.delta = none →
    applyChainLinks dmp codec (pre ++ bad :: post) content i
      = .error (.chainMissingDelta (i + pre.length + 1) bad.file_md5) := by
  intro pre
  induction pre with
  | nil =>
    intro content i c bad post hok hbad
    simp only [List.nil_append, applyChainLinks, hbad, List.length_nil]
  | cons l pre2 ih =>
    intro content i c bad post hok hbad
    simp only [applyChainLinks] at hok
    simp only [List.cons_append, applyChainLinks, List.length_cons]
    cases hld : l.delta with
    | none =>
      rw [hld] at hok
      cases hok
    | some d =>
      rw [hld] at hok
      have hok2 : (match apply_delta dmp codec content d
            (decide (l.delta_format = "human_readable")) with
          | Except.error e =>
              Except.error (DeltaError.chainApplyFailed (i + 1) l.file_md5 e)
          | Except.ok next_content =>
              applyChainLinks dmp codec pre2 next_content (i + 1))
          = Except.ok c := hok
      show (match apply_delta dmp codec content d
            (decide (l.delta_format = "human_readable")) with
          | Except.error e =>
              Except.error (DeltaError.chainApplyFailed (i + 1) l.file_md5 e)
          | Except.ok next_content =>
              applyChainLinks dmp codec (pre2 ++ bad :: post) next_content (i + 1))
          = Except.error (DeltaError.chainMissingDelta (i + (pre2.length + 1) + 1)
              bad.file_md5)
      clear hok
      cases hap : apply_delta dmp codec content d
          (decide (l.delta_format = "human_readable")) with
      | error e =>
        rw [hap] at hok2
        simp at hok2
      | ok next =>
        rw [hap] at hok2
        have hok3 : applyChainLinks dmp codec pre2 next (i + 1)
            = Except.ok c := hok2
        have hrec := ih next (i + 1) c bad post hok3 hbad
        have harith : i + 1 + pre2.length + 1 = i + (pre2.length + 1) + 1 := by
          omega
        show applyChainLinks dmp codec (pre2 ++ bad :: post) next (i + 1)
            = Except.error (DeltaError.chainMissingDelta
                (i + (pre2.length + 1) + 1) bad.file_md5)
        rw [hrec, harith]

/-- C10: if the resolved chain for a target contains a link with no stored
delta, and the links before it apply cleanly, reconstruction fails with the
`DeltaChainError` naming the 1-based chain position and that link's
fingerprint; the remaining deltas are not applied and no content (partial or
template) is returned. -/
theorem reconstruct_missing_delta {D P : Type} (dmp : DmpLib D P)
    (codec : Codec) (lookup : String → Option ChainRow)
    (target_md5 template_content : String) (max_chain_length : Nat)
    (root : String) (pre : List ChainLink) (bad : ChainLink)
    (post : List ChainLink) (c : String)
    (hres : resolve_delta_chain_from_db lookup target_md5 max_chain_length
      = .ok (root, pre ++ bad :: post))
    (hbad : bad.delta = none)
    (hpre : applyChainLinks dmp codec pre template_content 0 = .ok c) :
    reconstruct_file_from_chain dmp codec lookup target_md5 template_content
        max_chain_length
      = .error (.chainMissingDelta (pre.length + 1) bad.file_md5) := by
  unfold reconstruct_file_from_chain
  simp only [hres]
  rw [if_neg (by simp)]
  have h := applyChainLinks_missing dmp codec pre template_content 0 c bad post
    hpre hbad
  simpa using h

/-- C10 witness: a one-link chain whose only link lacks a stored delta
reconstructs to the missing-delta error at position 1 naming the target
fingerprint, under the default bound 100. -/
theorem reconstruct_missing_delta_witness :
    reconstruct_file_from_chain toyDmp toyCodec missingDeltaDb "t" "base" 100
      = .error (.chainMissingDelta 1 "t") := by
  have h := reconstruct_missing_delta toyDmp toyCodec missingDeltaDb "t" "base"
    100 "r" [] { file_md5 := "t", file_path := "p", delta := none,
                 delta_format := "compressed" } [] "base" (by decide) rfl rfl
  simpa using h

/-- Helper: the availability-removal update never changes a row's path or
md5, only its `available_at` array. -/
theorem remove_availability_update_key (file_path current_md5 location : String)
    (row : FileRow) :
    (remove_availability_update file_path current_md5 location row).file_path
        = row.file_path
    ∧ (remove_availability_update file_path current_md5 location row).file_md5
        = row.file_md5 := by
  unfold remove_availability_update
  split <;> exact ⟨rfl, rfl⟩

/-- Helper: the availability-addition update never changes a row's path or
md5, only its `available_at` array. -/
theorem add_available_at_update_key (file_obj : FileRow) (location : String)
    (row : FileRow) :
    (add_available_at_update file_obj location row).file_path = row.file_path
    ∧ (add_available_at_update file_obj location row).file_md5
        = row.file_md5 := by
  unfold add_available_at_update
  split
  · exact ⟨rfl, rfl⟩
  split <;> exact ⟨rfl, rfl⟩

/-- Helper: after the removal update, a row at the same path with a
different md5 no longer lists the location. -/
theorem remove_availability_update_clears (file_path current_md5 location : String)
    (row : FileRow) (hp : row.file_path = file_path)
    (hm : row.file_md5 ≠ current_md5) :
    location ∉
      (remove_availability_update file_path current_md5 location row).available_at := by
  unfold remove_availability_update
  by_cases hmem : location ∈ row.available_at
  · rw [if_pos ⟨hp, hm, hmem⟩]
    simp
  · rw [if_neg (fun h => hmem h.2.2)]
    exact hmem

/-- Helper: the removal update leaves rows at other paths or with the
current md5 untouched. -/
theorem remove_availability_update_id (file_path current_md5 location : String)
    (row : FileRow)
    (h : row.file_path ≠ file_path ∨ row.file_md5 = current_md5) :
    remove_availability_update file_path current_md5 location row = row := by
  unfold remove_availability_update
  rcases h with h | h
  · rw [if_neg (fun hc => h hc.1)]
  · rw [if_neg (fun hc => hc.2.1 h)]

/-- Helper: the addition update leaves every row other than the file
object's own (path, md5) untouched. -/
theorem add_available_at_update_id (file_obj : FileRow) (location : String)
    (row : FileRow)
    (h : ¬(row.file_path = file_obj.file_path
        ∧ row.file_md5 = file_obj.file_md5)) :
    add_available_at_update file_obj location row = row := by
  unfold add_available_at_update
  by_cases hmem : location ∈ file_obj.available_at
  · rw [if_pos hmem]
  · rw [if_neg hmem, if_neg h]

/-- Helper: the addition update never changes a row's availability when the
row's md5 differs from the file object's. -/
theorem add_available_at_update_avail_other (file_obj : FileRow)
    (location : String) (row : FileRow)
    (hm : row.file_md5 ≠ file_obj.file_md5) :
    (add_available_at_update file_obj location row).available_at
      = row.available_at := by
  rw [add_available_at_update_id file_obj location row (fun hc => hm hc.2)]

/-- Helper: membership in the transaction's resulting `files` table is the
image of the two availability updates over the original rows. -/
theorem push_success_transaction_files_mem (st : StoreState)
    (file_obj : FileRow) (data_sink_id : Nat) (r2 : FileRow) :
    r2 ∈ (push_success_transaction st file_obj data_sink_id).files
      ↔ ∃ r ∈ st.files,
          add_available_at_update file_obj ("ds:" ++ toString data_sink_id)
            (remove_availability_update file_obj.file_path file_obj.file_md5
              ("ds:" ++ toString data_sink_id) r) = r2 := by
  unfold push_success_transaction
  simp [List.mem_map, List.map_map, Function.comp]

/-- C1: the durable-store update committed by a successful push is the single
unit consisting of exactly (i) appending the PushRecord for
(sink, path, fingerprint), (ii) removing the sink token from every other
fingerprint at the path, (iii) adding the sink token to this fingerprint's
availability; rows at other paths are untouched, and the
at-most-one-fingerprint-per-path-per-token invariant for the sink's token is
established at the pushed path and preserved everywhere. -/
theorem push_file_to_sink_atomic_update (st : StoreState) (file_obj : FileRow)
    (data_sink_id : Nat)
    (hpre : locUniquePerPath st.files ("ds:" ++ toString data_sink_id)) :
    ((push_success_transaction st file_obj data_sink_id).pushes
        = st.pushes ++ [{ data_sink_id := data_sink_id,
                          file_path := file_obj.file_path,
                          file_md5 := file_obj.file_md5 }])
    ∧ (∀ r ∈ (push_success_transaction st file_obj data_sink_id).files,
        r.file_path = file_obj.file_path →
        ("ds:" ++ toString data_sink_id) ∈ r.available_at →
        r.file_md5 = file_obj.file_md5)
    ∧ (("ds:" ++ toString data_sink_id) ∉ file_obj.available_at →
        ∀ r ∈ (push_success_transaction st file_obj data_sink_id).files,
        r.file_path = file_obj.file_path →
        r.file_md5 = file_obj.file_md5 →
        ("ds:" ++ toString data_sink_id) ∈ r.available_at)
    ∧ locUniquePerPath (push_success_transaction st file_obj data_sink_id).files
        ("ds:" ++ toString data_sink_id)
    ∧ (∀ r ∈ st.files, r.file_path ≠ file_obj.file_path →
        r ∈ (push_success_transaction st file_obj data_sink_id).files) := by
  have hexactly : ∀ r2 ∈ (push_success_transaction st file_obj data_sink_id).files,
      r2.file_path = file_obj.file_path →
      ("ds:" ++ toString data_sink_id) ∈ r2.available_at →
      r2.file_md5 = file_obj.file_md5 := by
    intro r2 hr2 hp hl
    obtain ⟨r, hr, heq⟩ :=
      (push_success_transaction_files_mem st file_obj data_sink_id r2).mp hr2
    by_contra hne
    have hmd5 : r2.file_md5 = r.file_md5 := by
      rw [← heq]
      rw [(add_available_at_update_key _ _ _).2,
        (remove_availability_update_key _ _ _ _).2]
    have hpath : r2.file_path = r.file_path := by
      rw [← heq]
      rw [(add_available_at_update_key _ _ _).1,
        (remove_availability_update_key _ _ _ _).1]
    have hrm : r.file_md5 ≠ file_obj.file_md5 := fun hc => hne (hmd5.trans hc)
    have hrp : r.file_path = file_obj.file_path := hpath ▸ hp
    have h1 := remove_availability_update_clears file_obj.file_path
      file_obj.file_md5 ("ds:" ++ toString data_sink_id) r hrp hrm
    have h2 : (add_available_at_update file_obj ("ds:" ++ toString data_sink_id)
        (remove_availability_update file_obj.file_path file_obj.file_md5
          ("ds:" ++ toString data_sink_id) r)).available_at
        = (remove_availability_update file_obj.file_path file_obj.file_md5
          ("ds:" ++ toString data_sink_id) r).available_at := by
      refine add_available_at_update_avail_other _ _ _ ?_
      rw [(remove_availability_update_key _ _ _ _).2]
      exact hrm
    rw [heq] at h2
    rw [h2] at hl
    exact h1 hl
  refine ⟨rfl, hexactly, ?_, ?_, ?_⟩
  · intro hnotin r2 hr2 hp hm
    obtain ⟨r, hr, heq⟩ :=
      (push_success_transaction_files_mem st file_obj data_sink_id r2).mp hr2
    have hmd5 : r2.file_md5 = r.file_md5 := by
      rw [← heq]
      rw [(add_available_at_update_key _ _ _).2,
        (remove_availability_update_key _ _ _ _).2]
    have hpath : r2.file_path = r.file_path := by
      rw [← heq]
      rw [(add_available_at_update_key _ _ _).1,
        (remove_availability_update_key _ _ _ _).1]
    have hrm : r.file_md5 = file_obj.file_md5 := hmd5 ▸ hm
    have hrp : r.file_path = file_obj.file_path := hpath ▸ hp
    have hrem : remove_availability_update file_obj.file_path file_obj.file_md5
        ("ds:" ++ toString data_sink_id) r = r :=
      remove_availability_update_id _ _ _ _ (Or.inr hrm)
    rw [hrem] at heq
    unfold add_available_at_update at heq
    rw [if_neg hnotin, if_pos ⟨hrp, hrm⟩] at heq
    rw [← heq]
    simp
  · intro r1 h1 r2 h2 hpath hl1 hl2
    by_cases hP : r1.file_path = file_obj.file_path
    · have e1 := hexactly r1 h1 hP hl1
      have e2 := hexactly r2 h2 (hpath ▸ hP) hl2
      rw [e1, e2]
    · obtain ⟨s1, hs1, heq1⟩ :=
        (push_success_transaction_files_mem st file_obj data_sink_id r1).mp h1
      obtain ⟨s2, hs2, heq2⟩ :=
        (push_success_transaction_files_mem st file_obj data_sink_id r2).mp h2
      have hp1 : s1.file_path = r1.file_path := by
        rw [← heq1]
        rw [(add_available_at_update_key _ _ _).1,
          (remove_availability_update_key _ _ _ _).1]
      have hp2 : s2.file_path = r2.file_path := by
        rw [← heq2]
        rw [(add_available_at_update_key _ _ _).1,
          (remove_availability_update_key _ _ _ _).1]
      have hid1 : r1 = s1 := by
        rw [← heq1, remove_availability_update_id _ _ _ _
            (Or.inl (fun hc => hP (hp1 ▸ hc))),
          add_available_at_update_id _ _ _
            (fun hc => hP (hp1 ▸ hc.1))]
      have hid2 : r2 = s2 := by
        have hP2 : ¬ s2.file_path = file_obj.file_path := by
          rw [hp2, ← hpath]
          exact hP
        rw [← heq2, remove_availability_update_id _ _ _ _ (Or.inl hP2),
          add_available_at_update_id _ _ _ (fun hc => hP2 hc.1)]
      rw [hid1, hid2]
      refine hpre s1 hs1 s2 hs2 ?_ ?_ ?_
      · rw [hp1, hp2, hpath]
      · rw [← hid1]
        exact hl1
      · rw [← hid2]
        exact hl2
  · intro r hr hne
    refine (push_success_transaction_files_mem st file_obj data_sink_id r).mpr
      ⟨r, hr, ?_⟩
    rw [remove_availability_update_id _ _ _ _ (Or.inl hne),
      add_available_at_update_id _ _ _ (fun hc => hne hc.1)]

/-- C1 witness: pushing the newer version `f2` of path `p` to sink 7, where
the older version `f1` currently holds `ds:7`, preserves the
one-fingerprint-per-path invariant for `ds:7`. -/
theorem push_file_to_sink_atomic_update_witness :
    locUniquePerPath (push_success_transaction
        { files := [fileRowV1, fileRowV2], pushes := [] } fileRowV2 7).files
      ("ds:" ++ toString 7) :=
  (push_file_to_sink_atomic_update
    { files := [fileRowV1, fileRowV2], pushes := [] } fileRowV2 7
    (by unfold locUniquePerPath; decide)).2.2.2.1

/-- Helper: the source-sink search returns nothing exactly when no candidate
id is a valid source (exists, active, holds a push record). -/
theorem findRemoteSource_eq_none_iff (sinkById : Nat → Option SinkRec)
    (getPushRec : Nat → String → String → Option PushRow)
    (file_path file_md5 : String) :
    ∀ ids : List Nat,
    findRemoteSource sinkById getPushRec file_path file_md5 ids = none
      ↔ ∀ sink_id ∈ ids,
          ¬ validRemoteSource sinkById getPushRec file_path file_md5 sink_id := by
  intro ids
  induction ids with
  | nil =>
    simp [findRemoteSource]
  | cons sink_id rest ih =>
    have hstep : findRemoteSource sinkById getPushRec file_path file_md5
        (sink_id :: rest)
        = (match sinkById sink_id with
          | none => findRemoteSource sinkById getPushRec file_path file_md5 rest
          | some s =>
            if s.is_active = false then
              findRemoteSource sinkById getPushRec file_path file_md5 rest
            else
              match getPushRec sink_id file_path file_md5 with
              | none =>
                findRemoteSource sinkById getPushRec file_path file_md5 rest
              | some pr => some (s, pr)) := rfl
    cases hs : sinkById sink_id with
    | none =>
      rw [hstep]
      simp only [hs]
      constructor
      · intro hnone j hj
        rcases List.mem_cons.mp hj with hj | hj
        · subst hj
          rintro ⟨s, hsome, _⟩
          rw [hs] at hsome
          cases hsome
        · exact (ih.mp hnone) j hj
      · intro hall
        exact ih.mpr (fun j hj => hall j (List.mem_cons_of_mem _ hj))
    | some s =>
      rw [hstep]
      simp only [hs]
      by_cases hact : s.is_active = false
      · rw [if_pos hact]
        constructor
        · intro hnone j hj
          rcases List.mem_cons.mp hj with hj | hj
          · subst hj
            rintro ⟨s2, hsome, hact2, _⟩
            rw [hs] at hsome
            cases hsome
            rw [hact2] at hact
            cases hact
          · exact (ih.mp hnone) j hj
        · intro hall
          exact ih.mpr (fun j hj => hall j (List.mem_cons_of_mem _ hj))
      · rw [if_neg hact]
        cases hpr : getPushRec sink_id file_path file_md5 with
        | none =>
          simp only [hpr]
          constructor
          · intro hnone j hj
            rcases List.mem_cons.mp hj with hj | hj
            · subst hj
              rintro ⟨s2, hsome, _, pr, hpr2⟩
              rw [hpr] at hpr2
              cases hpr2
            · exact (ih.mp hnone) j hj
          · intro hall
            exact ih.mpr (fun j hj => hall j (List.mem_cons_of_mem _ hj))
        | some pr =>
          simp only [hpr]
          constructor
          · intro hnone
            cases hnone
          · intro hall
            exact absurd ⟨s, hs, Bool.eq_true_of_not_eq_false hact, pr, hpr⟩
              (hall sink_id (List.mem_cons_self _ _))

/-- Helper: the search returns the first candidate in list order that exists,
is active and holds a push record, with that sink and record. -/
theorem findRemoteSource_first (sinkById : Nat → Option SinkRec)
    (getPushRec : Nat → String → String → Option PushRow)
    (file_path file_md5 : String) :
    ∀ (pre : List Nat) (sink_id : Nat) (post : List Nat) (s : SinkRec)
      (pr : PushRow),
    (∀ j ∈ pre, ¬ validRemoteSource sinkById getPushRec file_path file_md5 j) →
    sinkById sink_id = some s →
    s.is_active = true →
    getPushRec sink_id file_path file_md5 = some pr →
    findRemoteSource sinkById getPushRec file_path file_md5
        (pre ++ sink_id :: post) = some (s, pr) := by
  intro pre
  induction pre with
  | nil =>
    intro sink_id post s pr _ hs hact hpr
    simp [findRemoteSource, hs, hpr, hact]
  | cons j rest ih =>
    intro sink_id post s pr hpre hs hact hpr
    have hjnot := hpre j (List.mem_cons_self _ _)
    have hrest : ∀ k ∈ rest,
        ¬ validRemoteSource sinkById getPushRec file_path file_md5 k :=
      fun k hk => hpre k (List.mem_cons_of_mem _ hk)
    have hstep : findRemoteSource sinkById getPushRec file_path file_md5
        ((j :: rest) ++ sink_id :: post)
        = (match sinkById j with
          | none => findRemoteSource sinkById getPushRec file_path file_md5
              (rest ++ sink_id :: post)
          | some sj =>
            if sj.is_active = false then
              findRemoteSource sinkById getPushRec file_path file_md5
                (rest ++ sink_id :: post)
            else
              match getPushRec j file_path file_md5 with
              | none =>
                findRemoteSource sinkById getPushRec file_path file_md5
                  (rest ++ sink_id :: post)
              | some prj => some (sj, prj)) := rfl
    rw [hstep]
    cases hsj : sinkById j with
    | none =>
      simp only []
      exact ih sink_id post s pr hrest hs hact hpr
    | some sj =>
      simp only []
      by_cases hactj : sj.is_active = false
      · rw [if_pos hactj]
        exact ih sink_id post s pr hrest hs hact hpr
      · rw [if_neg hactj]
        cases hprj : getPushRec j file_path file_md5 with
        | none =>
          simp only []
          exact ih sink_id post s pr hrest hs hact hpr
        | some prj =>
          exact absurd ⟨sj, hsj, Bool.eq_true_of_not_eq_false hactj, prj, hprj⟩
            hjnot

/-- C2: source resolution is the deterministic function of the availability
list and the collaborator state described by the spec: the worker's own host
token selects the local path; otherwise the first candidate `ds:` token in
availability-list order whose sink exists, is active and holds a push record
for the (path, md5) becomes the remote pull source; when no candidate
qualifies — in particular when the availability list is empty — the file is
skipped (not an error) with the hostname and availability set recorded in
the skip reason. -/
theorem resolve_file_source_spec (current_hostname : String)
    (sinkById : Nat → Option SinkRec)
    (getPushRec : Nat → String → String → Option PushRow)
    (file_path file_md5 : String) (available_at : List String)
    (target_data_sink_id : Nat) :
    (("hn:" ++ current_hostname) ∈ available_at →
      resolve_file_source current_hostname sinkById getPushRec file_path
          file_md5 available_at target_data_sink_id
        = { source_type := "local", file_path := some file_path,
            source_data_sink := none, source_data_push := none,
            skip_reason := none })
    ∧ (("hn:" ++ current_hostname) ∉ available_at →
       (∀ sink_id ∈ candidateSinkIds available_at target_data_sink_id,
          ¬ validRemoteSource sinkById getPushRec file_path file_md5 sink_id) →
      resolve_file_source current_hostname sinkById getPushRec file_path
          file_md5 available_at target_data_sink_id
        = { source_type := "skip", file_path := none,
            source_data_sink := none, source_data_push := none,
            skip_reason := some (current_hostname, available_at) })
    ∧ (∀ (pre : List Nat) (sink_id : Nat) (post : List Nat) (s : SinkRec)
          (pr : PushRow),
        ("hn:" ++ current_hostname) ∉ available_at →
        candidateSinkIds available_at target_data_sink_id
          = pre ++ sink_id :: post →
        (∀ j ∈ pre,
          ¬ validRemoteSource sinkById getPushRec file_path file_md5 j) →
        sinkById sink_id = some s →
        s.is_active = true →
        getPushRec sink_id file_path file_md5 = some pr →
        resolve_file_source current_hostname sinkById getPushRec file_path
            file_md5 available_at target_data_sink_id
          = { source_type := "remote", file_path := none,
              source_data_sink := some s, source_data_push := some pr,
              skip_reason := none })
    ∧ (available_at = [] →
        (resolve_file_source current_hostname sinkById getPushRec file_path
            file_md5 available_at target_data_sink_id).source_type
          = "skip") := by
  refine ⟨?_, ?_, ?_, ?_⟩
  · intro hmem
    unfold resolve_file_source
    rw [if_pos hmem]
  · intro hmem hnone
    unfold resolve_file_source
    rw [if_neg hmem]
    rw [(findRemoteSource_eq_none_iff sinkById getPushRec file_path file_md5
      (candidateSinkIds available_at target_data_sink_id)).mpr hnone]
  · intro pre sink_id post s pr hmem hcand hpre hs hact hpr
    unfold resolve_file_source
    rw [if_neg hmem, hcand,
      findRemoteSource_first sinkById getPushRec file_path file_md5 pre
        sink_id post s pr hpre hs hact hpr]
  · intro hempty
    subst hempty
    unfold resolve_file_source
    rw [if_neg (by simp)]
    have hc : candidateSinkIds [] target_data_sink_id = [] := rfl
    rw [hc]
    rfl

/-- C2 witness: with availability `["ds:1"]`, target sink 7, and sink 1
active and holding the push record, resolution selects sink 1 as the remote
source. -/
theorem resolve_file_source_spec_witness :
    resolve_file_source "node1" toySinkById toyGetPushRec "p" "m" ["ds:1"] 7
      = { source_type := "remote", file_path := none,
          source_data_sink := some { data_sink_id := 1, data_sink_name := "s1",
                                     is_active := true },
          source_data_push := some { data_sink_id := 1, file_path := "p",
                                     file_md5 := "m" },
          skip_reason := none } :=
  (resolve_file_source_spec "node1" toySinkById toyGetPushRec "p" "m"
    ["ds:1"] 7).2.2.1 [] 1 []
    { data_sink_id := 1, data_sink_name := "s1", is_active := true }
    { data_sink_id := 1, file_path := "p", file_md5 := "m" }
    (by decide) (by decide) (by intro j hj; cases hj) (by decide) (by decide)
    (by decide)

/-- Helper: the `rn = 1` row of a path's partition is a member of the scope
at that path and carries the maximal modification time of the partition. -/
theorem latestAtPath_spec (scopedRows : List FileRow) (p : String) (w : FileRow)
    (h : latestAtPath scopedRows p = some w) :
    w ∈ scopedRows ∧ w.file_path = p
    ∧ ∀ f ∈ scopedRows, f.file_path = p → f.file_m_time ≤ w.file_m_time := by
  simp only [latestAtPath] at h
  have hmem := List.mem_of_find?_eq_some h
  have hpred := List.find?_some h
  have hmem2 := List.mem_filter.mp hmem
  refine ⟨hmem2.1, of_decide_eq_true hmem2.2, ?_⟩
  intro f hf hfp
  have hfpart : f ∈ scopedRows.filter (fun r => r.file_path = p) :=
    List.mem_filter.mpr ⟨hf, by simp [hfp]⟩
  exact of_decide_eq_true (List.all_eq_true.mp hpred f hfpart)

/-- C4: every file returned by `get_files_to_push` is an in-scope row with no
PushRecord for the sink whose modification time dominates every in-scope row
at its path (so an older version at the same path is never returned, even if
itself unpushed), and at most one row is returned per path. -/
theorem get_files_to_push_spec (files : List FileRow) (pulls : List PullRow)
    (pushes : List PushRow) (project_id site_id : String)
    (data_sink_id : Nat) :
    (∀ w ∈ get_files_to_push files pulls pushes project_id site_id data_sink_id,
      w ∈ files ∧ inPullScope pulls project_id site_id w = true
      ∧ hasPushRecord pushes data_sink_id w = false
      ∧ ∀ f ∈ files, inPullScope pulls project_id site_id f = true →
          f.file_path = w.file_path → f.file_m_time ≤ w.file_m_time)
    ∧ (∀ w1 ∈ get_files_to_push files pulls pushes project_id site_id
          data_sink_id,
       ∀ w2 ∈ get_files_to_push files pulls pushes project_id site_id
          data_sink_id,
       w1.file_path = w2.file_path → w1 = w2) := by
  have hchar : ∀ w,
      w ∈ get_files_to_push files pulls pushes project_id site_id data_sink_id →
      ∃ p, latestAtPath (files.filter (inPullScope pulls project_id site_id)) p
            = some w
        ∧ hasPushRecord pushes data_sink_id w = false := by
    intro w hw
    simp only [get_files_to_push] at hw
    obtain ⟨p, _, hg⟩ := List.mem_filterMap.mp hw
    cases hlat : latestAtPath (files.filter (inPullScope pulls project_id site_id)) p with
    | none =>
      rw [hlat] at hg
      cases hg
    | some w0 =>
      rw [hlat] at hg
      have hg2 : (if hasPushRecord pushes data_sink_id w0 = true then none
          else some w0) = some w := hg
      by_cases hpush : hasPushRecord pushes data_sink_id w0 = true
      · rw [if_pos hpush] at hg2
        cases hg2
      · rw [if_neg hpush] at hg2
        cases hg2
        exact ⟨p, hlat, Bool.eq_false_iff.mpr (fun hc => hpush hc)⟩
  constructor
  · intro w hw
    obtain ⟨p, hlat, hpush⟩ := hchar w hw
    obtain ⟨hmem, hwp, hmax⟩ := latestAtPath_spec _ p w hlat
    have hmem2 := List.mem_filter.mp hmem
    refine ⟨hmem2.1, hmem2.2, hpush, ?_⟩
    intro f hf hscope hfp
    exact hmax f (List.mem_filter.mpr ⟨hf, hscope⟩) (hfp.trans hwp)
  · intro w1 h1 w2 h2 hpath
    obtain ⟨p1, hlat1, _⟩ := hchar w1 h1
    obtain ⟨p2, hlat2, _⟩ := hchar w2 h2
    obtain ⟨_, hwp1, _⟩ := latestAtPath_spec _ p1 w1 hlat1
    obtain ⟨_, hwp2, _⟩ := latestAtPath_spec _ p2 w2 hlat2
    have hpp : p1 = p2 := by
      rw [← hwp1, ← hwp2, hpath]
    rw [hpp] at hlat1
    rw [hlat1] at hlat2
    cases hlat2
    rfl

/-- C4 witness: with two in-scope versions at path `p` and no PushRecords,
the returned most-recent version `f2` dominates the older `f1` by
modification time and is unpushed. -/
theorem get_files_to_push_spec_witness :
    fileRowV2 ∈ [fileRowV1, fileRowV2]
    ∧ inPullScope pullRowsV "pr" "si" fileRowV2 = true
    ∧ hasPushRecord [] 9 fileRowV2 = false
    ∧ ∀ f ∈ [fileRowV1, fileRowV2], inPullScope pullRowsV "pr" "si" f = true →
        f.file_path = fileRowV2.file_path →
        f.file_m_time ≤ fileRowV2.file_m_time :=
  (get_files_to_push_spec [fileRowV1, fileRowV2] pullRowsV [] "pr" "si" 9).1
    fileRowV2 (by decide)

end Lochness
